import Mathlib

/-!
Verification of the IceBurger Tetris game engine (tetris.c).

The C engine is shallowly embedded: the board is a total function from
row/column indices to cells, piece positions are integers (they can be
negative near the top of the board), randomness (rand calls) is threaded
as explicit parameters, and the two C while loops (hard-drop descent and
the line-clear scan) are embedded as fuel-indexed structural recursions
together with lemmas showing the chosen fuel always suffices.
-/

/-- Board cell: mirrors `typedef struct { bool filled; int type; int tint; } Cell`. -/
structure Cell where
  filled : Bool
  type : ℕ
  tint : ℕ
deriving DecidableEq

def emptyCell : Cell := { filled := false, type := 0, tint := 0 }

abbrev Row : Type := Fin 10 → Cell

abbrev Board : Type := Fin 20 → Fin 10 → Cell

def emptyRow : Row := fun _ => emptyCell

def emptyBoard : Board := fun _ _ => emptyCell

/-- Piece: mirrors the C `Piece` struct.  The 4x4 mask `m` is a boolean
function; `x`, `y` are integers since kicks can move a piece to row -1. -/
structure Piece where
  k : ℕ
  w : ℕ
  h : ℕ
  x : ℤ
  y : ℤ
  m : Fin 4 → Fin 4 → Bool
  type : ℕ
  tint : ℕ
deriving DecidableEq

/-- The seven tetromino shapes, `static const unsigned char SHAPES[7][4][4]`. -/
def SHAPES_DATA : List (List (List ℕ)) :=
  [ [[0,0,0,0],[1,1,1,1],[0,0,0,0],[0,0,0,0]],
    [[1,1,0,0],[1,1,0,0],[0,0,0,0],[0,0,0,0]],
    [[0,1,0,0],[1,1,1,0],[0,0,0,0],[0,0,0,0]],
    [[0,1,1,0],[1,1,0,0],[0,0,0,0],[0,0,0,0]],
    [[1,1,0,0],[0,1,1,0],[0,0,0,0],[0,0,0,0]],
    [[1,0,0,0],[1,1,1,0],[0,0,0,0],[0,0,0,0]],
    [[0,0,1,0],[1,1,1,0],[0,0,0,0],[0,0,0,0]] ]

def SHAPES (k : Fin 7) (r c : Fin 4) : Bool :=
  decide ((((SHAPES_DATA.getD k.val []).getD r.val []).getD c.val 0) ≠ 0)

/-- Mirrors `piece_from_k`; the `rand()%2` visual type is threaded as `ty`. -/
def piece_from_k (k : Fin 7) (ty : ℕ) : Piece :=
  { k := k.val, w := 4, h := 4, x := 10 / 2 - 2, y := 0
    m := fun r c => SHAPES k r c, type := ty, tint := k.val }

/-- The all-zero piece produced by `memset(g,0,sizeof *g)` in `game_reset`. -/
def zeroPiece : Piece :=
  { k := 0, w := 0, h := 0, x := 0, y := 0, m := fun _ _ => false, type := 0, tint := 0 }

/-- Mirrors `rotate_cw`: the C code sets `t[c][3-r] = m[r][c]`, so the new
mask at `(i, j)` reads the old mask at `(3-j, i)`. -/
def rotate_cw (p : Piece) : Piece :=
  { p with m := fun i j => p.m (3 - j) i }

/-- Mirrors `rotate_ccw`: the C code sets `t[3-c][r] = m[r][c]`, so the new
mask at `(i, j)` reads the old mask at `(j, 3-i)`. -/
def rotate_ccw (p : Piece) : Piece :=
  { p with m := fun i j => p.m j (3 - i) }

/-- Game state, mirroring the C `Game` struct (the `fall_accum` field is
kept for completeness). -/
structure Game where
  board : Board
  cur : Piece
  next : Piece
  hold : Piece
  has_hold : Bool
  can_hold : Bool
  game_over : Bool
  score : ℕ
  lines : ℕ
  level : ℕ
  fall_ms : ℤ
  fall_accum : ℕ
deriving DecidableEq

/-- Guarded board access used by `collide`: in the C code the bounds test
short-circuits before `g->board[y][x]` is read, so out-of-range
coordinates never reach the array access; the guard is made explicit here. -/
def boardFilled (b : Board) (y x : ℤ) : Bool :=
  if hy : 0 ≤ y ∧ y < 20 then
    if hx : 0 ≤ x ∧ x < 10 then
      (b ⟨y.toNat, by omega⟩ ⟨x.toNat, by omega⟩).filled
    else false
  else false

/-- Mirrors `collide`: scans the 4x4 mask; any set cell that falls outside
the board rectangle or on a filled cell makes the whole test true. -/
def collide (g : Game) (p : Piece) (nx ny : ℤ) : Bool :=
  (List.finRange 4).any fun r =>
    (List.finRange 4).any fun c =>
      p.m r c &&
        (decide (nx + c.val < 0) || decide (10 ≤ nx + c.val) ||
         decide (ny + r.val < 0) || decide (20 ≤ ny + r.val) ||
         boardFilled g.board (ny + r.val) (nx + c.val))

/-- Board part of `lock_piece`: cell `(i, j)` is overwritten exactly when
some set mask cell of `p` maps onto it; mask cells whose absolute
coordinates are outside the board address no board cell and are dropped,
mirroring the `y>=0 && y<ROWS && x>=0 && x<COLS` guard. -/
def lockBoard (b : Board) (p : Piece) : Board :=
  fun i j =>
    if (List.finRange 4).any (fun r => (List.finRange 4).any fun c =>
        p.m r c && decide (p.y + r.val = i.val) && decide (p.x + c.val = j.val)) then
      { filled := true, type := p.type, tint := p.tint }
    else b i j

/-- Mirrors `lock_piece`: writes the current piece into the board. -/
def lock_piece (g : Game) : Game :=
  { g with board := lockBoard g.board g.cur }

/-- Row access extended by empty rows outside the board; used to phrase
the line-clear scan uniformly over natural row indices. -/
def rowAt (b : Board) (j : ℕ) : Row :=
  if h : j < 20 then b ⟨j, h⟩ else emptyRow

/-- A row is full iff every one of its 10 cells is filled (the inner
`for(c...)` loop of `clear_lines` with early break). -/
def rowFull (row : Row) : Bool :=
  (List.finRange 10).all fun c => (row c).filled

def isFullRowN (b : Board) (j : ℕ) : Bool := rowFull (rowAt b j)

/-- The row shift performed when row `r` is cleared: row 0 becomes empty,
rows `1..r` each take the row above them, rows below `r` are untouched
(mirrors the `memcpy` pull-down plus `memset` of row 0). -/
def shiftDown (b : Board) (r : ℕ) : Board :=
  fun i c =>
    if i.val = 0 then emptyCell
    else if i.val ≤ r then b ⟨i.val - 1, by omega⟩ c
    else b i c

/-- Number of full rows among rows `0..n-1`. -/
def fullN (b : Board) : ℕ → ℕ
  | 0 => 0
  | n + 1 => fullN b n + (if isFullRowN b n then 1 else 0)

/-- The non-full rows among rows `0..n-1`, top to bottom. -/
def keepN (b : Board) : ℕ → List Row
  | 0 => []
  | n + 1 => keepN b n ++ (if isFullRowN b n then [] else [rowAt b n])

/-- The fully compacted stack: the full rows removed, the surviving rows
in their original order, and as many empty rows on top. -/
def compactList (b : Board) (n : ℕ) : List Row :=
  List.replicate (fullN b n) emptyRow ++ keepN b n

/-- Fuel-indexed embedding of the `clear_lines` scanning loop.  One call
with row index `r` mirrors one iteration of `for(r=ROWS-1;r>=0;r--)`:
a full row is shifted out and the same index is re-examined; otherwise
the scan moves up one row.  `clearLoopF_spec` below shows that fuel
`441` suffices for every board. -/
def clearLoopF : ℕ → Board → ℕ → Board × ℕ
  | 0, b, _ => (b, 0)
  | fuel + 1, b, r =>
    if r < 20 then
      if isFullRowN b r then
        let res := clearLoopF fuel (shiftDown b r) r
        (res.1, res.2 + 1)
      else
        match r with
        | 0 => (b, 0)
        | r' + 1 => clearLoopF fuel b r'
    else (b, 0)

def clearResult (b : Board) : Board × ℕ := clearLoopF 441 b 19

/-- The C score table `score_tbl[5]`; indices over 4 never occur in
reachable states (see the C6 development). -/
def score_tbl (n : ℕ) : ℕ := [0, 40, 100, 300, 1200].getD n 0

/-- Mirrors `clear_lines`: compacts the board, then (only when at least
one row cleared) updates score, lines, level and fall interval. -/
def clear_lines (g : Game) : Game :=
  let res := clearResult g.board
  if res.2 ≠ 0 then
    { g with
      board := res.1
      score := g.score + score_tbl res.2 * (g.level + 1)
      lines := g.lines + res.2
      level := (g.lines + res.2) / 10
      fall_ms := max 90 (900 - 70 * (((g.lines + res.2) / 10 : ℕ) : ℤ)) }
  else { g with board := res.1 }

/-- Mirrors `spawn_piece`; the fresh random piece for the lookahead slot
is threaded as `(k, ty)`. -/
def spawn_piece (g : Game) (k : Fin 7) (ty : ℕ) : Game :=
  let g1 := { g with cur := { g.next with x := 10 / 2 - 2, y := 0 }, next := piece_from_k k ty }
  let g2 := if collide g1 g1.cur g1.cur.x g1.cur.y then { g1 with game_over := true } else g1
  { g2 with can_hold := true }

/-- Mirrors `hold_piece`. -/
def hold_piece (g : Game) (k : Fin 7) (ty : ℕ) : Game :=
  if g.can_hold then
    if !g.has_hold then
      let g1 := { g with hold := g.cur, has_hold := true }
      let g2 := spawn_piece g1 k ty
      { g2 with can_hold := false }
    else
      let g1 := { g with hold := g.cur, cur := { g.hold with x := 10 / 2 - 2, y := 0 } }
      let g2 := if collide g1 g1.cur g1.cur.x g1.cur.y then { g1 with game_over := true } else g1
      { g2 with can_hold := false }
  else g

/-- Fuel-indexed embedding of the descent loop of `hard_drop`
(`while(!collide(..., y+1)) y++`).  For every piece arising in play the
loop runs at most 23 times (a nonempty mask forces a collision once the
piece reaches the floor), so fuel 64 is more than sufficient. -/
def dropLoopF : ℕ → Game → Game
  | 0, g => g
  | fuel + 1, g =>
    if collide g g.cur g.cur.x (g.cur.y + 1) then g
    else dropLoopF fuel { g with cur := { g.cur with y := g.cur.y + 1 } }

/-- Mirrors `hard_drop`. -/
def hard_drop (g : Game) (k : Fin 7) (ty : ℕ) : Game :=
  spawn_piece (clear_lines (lock_piece (dropLoopF 64 g))) k ty

/-- Mirrors `soft_step`. -/
def soft_step (g : Game) (k : Fin 7) (ty : ℕ) : Game :=
  if collide g g.cur g.cur.x (g.cur.y + 1) then
    spawn_piece (clear_lines (lock_piece g)) k ty
  else { g with cur := { g.cur with y := g.cur.y + 1 } }

/-- The kick table of `attempt_rotate`, in source order. -/
def kicks : List (ℤ × ℤ) := [(0, 0), (1, 0), (-1, 0), (0, -1), (0, 1)]

/-- The kick probing loop of `attempt_rotate`: the first non-colliding
offset commits the rotated piece (mask and shifted position together). -/
def tryKicks (g : Game) (t : Piece) : List (ℤ × ℤ) → Game
  | [] => g
  | kk :: rest =>
    if collide g t (t.x + kk.1) (t.y + kk.2) then tryKicks g t rest
    else { g with cur := { t with x := t.x + kk.1, y := t.y + kk.2 } }

/-- Mirrors `attempt_rotate`. -/
def attempt_rotate (g : Game) (cw : Bool) : Game :=
  let t := if cw then rotate_cw g.cur else rotate_ccw g.cur
  tryKicks g t kicks

/-- Left move from the event loop (`SDLK_LEFT` branch). -/
def move_left (g : Game) : Game :=
  if collide g g.cur (g.cur.x - 1) g.cur.y then g
  else { g with cur := { g.cur with x := g.cur.x - 1 } }

/-- Right move from the event loop (`SDLK_RIGHT` branch). -/
def move_right (g : Game) : Game :=
  if collide g g.cur (g.cur.x + 1) g.cur.y then g
  else { g with cur := { g.cur with x := g.cur.x + 1 } }

/-- Mirrors `game_reset`; the two initial random pieces are threaded. -/
def game_reset (k1 : Fin 7) (t1 : ℕ) (k2 : Fin 7) (t2 : ℕ) : Game :=
  { board := emptyBoard
    cur := piece_from_k k1 t1
    next := piece_from_k k2 t2
    hold := zeroPiece
    has_hold := false
    can_hold := true
    game_over := false
    score := 0
    lines := 0
    level := 0
    fall_ms := 900
    fall_accum := 0 }

/-- Payload of one particle, mirroring the non-flag fields of the C
`Particle` struct.  The float fields are modelled over ℚ; their values
are produced by `rand`-driven float formulas (`cosf`, `sinf`, `frandf`)
that play no role in the pool-management claims, so `spawn_explosion`
below receives the payload values already drawn. -/
structure ParticleData where
  px : ℚ
  py : ℚ
  vx : ℚ
  vy : ℚ
  life : ℚ
  maxlife : ℚ
deriving DecidableEq

structure Particle where
  alive : Bool
  d : ParticleData
deriving DecidableEq

abbrev MAX_PARTICLES : ℕ := 4096

abbrev Pool : Type := Fin MAX_PARTICLES → Particle

def deadParticle : Particle := { alive := false, d := ⟨0, 0, 0, 0, 0, 0⟩ }

/-- Mirrors `particles_reset` (memset of the pool). -/
def particles_reset : Pool := fun _ => deadParticle

/-- The inner slot-scanning loop of `spawn_explosion`
(`for(j=0;j<MAX_PARTICLES;j++) if(!particles[j].alive) ... break`):
scan indices upward from `j` with `fuel` slots left to inspect, returning
the first dead slot. -/
def findFreeAux (pool : Pool) : ℕ → ℕ → Option (Fin MAX_PARTICLES)
  | _, 0 => none
  | j, fuel + 1 =>
    if h : j < MAX_PARTICLES then
      if !(pool ⟨j, h⟩).alive then some ⟨j, h⟩ else findFreeAux pool (j + 1) fuel
    else none

/-- The first dead slot of the pool, if any: the inner loop started at
slot 0 with all 4096 slots to inspect. -/
def findFreeSlot (pool : Pool) : Option (Fin MAX_PARTICLES) :=
  findFreeAux pool 0 MAX_PARTICLES

/-- One iteration of the outer loop of `spawn_explosion`: write the drawn
particle into the first dead slot, or drop it when the pool is saturated. -/
def spawnOne (pool : Pool) (d : ParticleData) : Pool :=
  (findFreeSlot pool).elim pool fun j => Function.update pool j { alive := true, d := d }

/-- Mirrors `spawn_explosion`: the outer loop runs `count` times, once per
element of `ds` (`count = 120 + rand()%80`, so `120 ≤ ds.length ≤ 199`). -/
def spawn_explosion (pool : Pool) (ds : List ParticleData) : Pool :=
  ds.foldl spawnOne pool

/-- Mirrors `particles_update`: ages every live particle; an expired one
is marked dead and skipped, otherwise gravity, drag and position are
integrated (float arithmetic modelled over ℚ). -/
def particles_update (dt : ℚ) (pool : Pool) : Pool :=
  fun i =>
    let p := pool i
    if p.alive then
      let life1 := p.d.life + dt
      if p.d.maxlife ≤ life1 then { p with alive := false }
      else
        let vy1 := p.d.vy + 900 * dt
        let vx1 := p.d.vx * (1 - (4 / 5) * dt)
        { alive := true
          d := { px := p.d.px + vx1 * dt, py := p.d.py + vy1 * dt
                 vx := vx1, vy := vy1, life := life1, maxlife := p.d.maxlife } }
    else p

/-- Number of live particles in the pool. -/
def aliveCount (pool : Pool) : ℕ :=
  (Finset.univ.filter fun j : Fin MAX_PARTICLES => (pool j).alive = true).card

/-- A particle-system event: one explosion (with its drawn payloads) or
one update tick. -/
inductive PoolOp : Type
  | explosion (ds : List ParticleData)
  | update (dt : ℚ)

def applyPoolOp (pool : Pool) : PoolOp → Pool
  | PoolOp.explosion ds => spawn_explosion pool ds
  | PoolOp.update dt => particles_update dt pool

def runPoolOps (pool : Pool) (ops : List PoolOp) : Pool :=
  ops.foldl applyPoolOp pool

/-- Game states reachable from a reset through the operations the event
loop performs while the game is not over. -/
inductive Reachable : Game → Prop
  | reset (k1 : Fin 7) (t1 : ℕ) (k2 : Fin 7) (t2 : ℕ) :
      Reachable (game_reset k1 t1 k2 t2)
  | left {g : Game} : Reachable g → g.game_over = false → Reachable (move_left g)
  | right {g : Game} : Reachable g → g.game_over = false → Reachable (move_right g)
  | rot {g : Game} (cw : Bool) : Reachable g → g.game_over = false →
      Reachable (attempt_rotate g cw)
  | soft {g : Game} (k : Fin 7) (ty : ℕ) : Reachable g → g.game_over = false →
      Reachable (soft_step g k ty)
  | hard {g : Game} (k : Fin 7) (ty : ℕ) : Reachable g → g.game_over = false →
      Reachable (hard_drop g k ty)
  | holdOp {g : Game} (k : Fin 7) (ty : ℕ) : Reachable g → g.game_over = false →
      Reachable (hold_piece g k ty)


def ScoreInv (g : Game) : Prop :=
  g.level = g.lines / 10 ∧ g.fall_ms = max 90 (900 - 70 * (g.level : ℤ))

def filledCount (b : Board) : ℕ :=
  (Finset.univ.filter fun ij : Fin 20 × Fin 10 => (b ij.1 ij.2).filled = true).card

def maskCount (p : Piece) : ℕ :=
  (Finset.univ.filter fun rc : Fin 4 × Fin 4 => p.m rc.1 rc.2 = true).card

/-- The collision test a spawn performs: the promoted lookahead piece at
the spawn column and row 0, against the unchanged board. -/
def spawnCollides (g : Game) : Bool :=
  collide g { g.next with x := 10 / 2 - 2, y := 0 } (10 / 2 - 2) 0

/-- The collision test of the hold-swap branch: the swapped-in hold piece
at the spawn column and row 0, against the unchanged board. -/
def holdCollides (g : Game) : Bool :=
  collide g { g.hold with x := 10 / 2 - 2, y := 0 } (10 / 2 - 2) 0

/-! ## Concrete states used to exercise the development -/

/-- A reset game state with both threaded pieces of kind I. -/
def gReset : Game := game_reset 0 0 0 0

/-- The O piece as spawned. -/
def pieceO : Piece := piece_from_k 1 0

/-- A board whose bottom row is completely filled. -/
def bottomFullBoard : Board :=
  fun i _ => if i.val = 19 then { filled := true, type := 0, tint := 0 } else emptyCell

/-- A board with a single filled cell at row 19, column 0. -/
def oneCellBoard : Board :=
  fun i j => if i.val = 19 ∧ j.val = 0 then { filled := true, type := 0, tint := 0 } else emptyCell

/-- The reset state with the bottom row filled in. -/
def gBottomFull : Game := { gReset with board := bottomFullBoard }

/-- A pool with exactly one live particle, in slot 0. -/
def onePool : Pool :=
  Function.update particles_reset 0 { alive := true, d := ⟨1, 2, 3, 4, 0, 1⟩ }

/-! ## Helper lemmas: collision -/

lemma boardFilled_eq_true_iff (b : Board) (y x : ℤ) :
    boardFilled b y x = true ↔
      ∃ (yy : Fin 20) (xx : Fin 10),
        (yy.val : ℤ) = y ∧ (xx.val : ℤ) = x ∧ (b yy xx).filled = true := by
  constructor
  · intro h
    unfold boardFilled at h
    by_cases hy : 0 ≤ y ∧ y < 20
    · by_cases hx : 0 ≤ x ∧ x < 10
      · rw [dif_pos hy, dif_pos hx] at h
        refine ⟨⟨y.toNat, by omega⟩, ⟨x.toNat, by omega⟩, ?_, ?_, h⟩
        · simp [Int.toNat_of_nonneg hy.1]
        · simp [Int.toNat_of_nonneg hx.1]
      · rw [dif_pos hy, dif_neg hx] at h
        exact absurd h (by simp)
    · rw [dif_neg hy] at h
      exact absurd h (by simp)
  · rintro ⟨yy, xx, hyy, hxx, h⟩
    have h1 := yy.isLt
    have h2 := xx.isLt
    have hy : 0 ≤ y ∧ y < 20 := by omega
    have hx : 0 ≤ x ∧ x < 10 := by omega
    unfold boardFilled
    rw [dif_pos hy, dif_pos hx]
    have e1 : (⟨y.toNat, by omega⟩ : Fin 20) = yy := by
      apply Fin.ext; simp; omega
    have e2 : (⟨x.toNat, by omega⟩ : Fin 10) = xx := by
      apply Fin.ext; simp; omega
    rw [e1, e2]
    exact h

lemma collide_eq_true_iff (g : Game) (p : Piece) (nx ny : ℤ) :
    collide g p nx ny = true ↔
      ∃ r c : Fin 4, p.m r c = true ∧
        (nx + c.val < 0 ∨ 10 ≤ nx + c.val ∨ ny + r.val < 0 ∨ 20 ≤ ny + r.val ∨
          ∃ (yy : Fin 20) (xx : Fin 10),
            (yy.val : ℤ) = ny + r.val ∧ (xx.val : ℤ) = nx + c.val ∧
            (g.board yy xx).filled = true) := by
  simp only [collide, List.any_eq_true, List.mem_finRange, true_and,
    Bool.and_eq_true, Bool.or_eq_true, decide_eq_true_eq, boardFilled_eq_true_iff]
  constructor
  · rintro ⟨r, c, h1, h2⟩
    exact ⟨r, c, h1, by tauto⟩
  · rintro ⟨r, c, h1, h2⟩
    exact ⟨r, c, h1, by tauto⟩

lemma collide_of_above_top (g : Game) (p : Piece) (nx ny : ℤ)
    (h : ∃ r c : Fin 4, p.m r c = true ∧ ny + r.val < 0) :
    collide g p nx ny = true := by
  rcases h with ⟨r, c, hm, hy⟩
  rw [collide_eq_true_iff]
  exact ⟨r, c, hm, Or.inr (Or.inr (Or.inl hy))⟩

/-! ## C1: specification of collide -/

/-- C1: `collide(board, piece, nx, ny)` returns true iff some set cell of
the 4x4 mask maps to an absolute coordinate outside the 10x20 board or to
a filled board cell, and false otherwise.  The embedding is purely
functional, so the call leaves board and piece untouched by construction. -/
theorem collide_characterization (g : Game) (p : Piece) (nx ny : ℤ) :
    collide g p nx ny = true ↔
      ∃ r c : Fin 4, p.m r c = true ∧
        (nx + c.val < 0 ∨ 10 ≤ nx + c.val ∨ ny + r.val < 0 ∨ 20 ≤ ny + r.val ∨
          ∃ (yy : Fin 20) (xx : Fin 10),
            (yy.val : ℤ) = ny + r.val ∧ (xx.val : ℤ) = nx + c.val ∧
            (g.board yy xx).filled = true) :=
  collide_eq_true_iff g p nx ny

/-! ## C2: cells above the board top -/

/-- C2 counterexample: the O piece at position (4, -1) on the empty board
has its two top mask cells above the board (absolute row -1) and its two
other set cells on empty in-range cells of row 0, yet `collide` returns
true — the code treats rows above the top as collisions even for the
pending placements used by spawn checks, contrary to the claim. -/
theorem collide_above_top_counterexample :
    (∃ r c : Fin 4, pieceO.m r c = true ∧ (-1 : ℤ) + r.val < 0) ∧
    (∀ r c : Fin 4, pieceO.m r c = true → 0 ≤ (-1 : ℤ) + r.val →
      0 ≤ (4 : ℤ) + c.val ∧ (4 : ℤ) + c.val < 10 ∧ (-1 : ℤ) + r.val < 20 ∧
      boardFilled gReset.board ((-1 : ℤ) + r.val) ((4 : ℤ) + c.val) = false) ∧
    collide gReset pieceO 4 (-1) = true := by
  refine ⟨by decide, by decide, by decide⟩

/-- C2 amended: a placement with any set mask cell above the board top
(absolute row below 0) is always reported as a collision by `collide`;
cells above the top are not permitted, for pending pieces or otherwise. -/
theorem collide_rejects_above_top (g : Game) (p : Piece) (nx ny : ℤ)
    (h : ∃ r c : Fin 4, p.m r c = true ∧ ny + r.val < 0) :
    collide g p nx ny = true :=
  collide_of_above_top g p nx ny h

/-- Witness for `collide_rejects_above_top` at the C2 counterexample
configuration. -/
theorem collide_rejects_above_top_witness :
    collide gReset pieceO 4 (-1) = true :=
  collide_rejects_above_top gReset pieceO 4 (-1) (by decide)
lemma tryKicks_all_fail (g : Game) (t : Piece)
    (h : ∀ kk ∈ kicks, collide g t (t.x + kk.1) (t.y + kk.2) = true) :
    tryKicks g t kicks = g := by
  have h0 := h (0, 0) (by simp [kicks])
  have h1 := h (1, 0) (by simp [kicks])
  have h2 := h (-1, 0) (by simp [kicks])
  have h3 := h (0, -1) (by simp [kicks])
  have h4 := h (0, 1) (by simp [kicks])
  simp only [kicks, tryKicks] at *
  rw [if_pos h0, if_pos h1, if_pos h2, if_pos h3, if_pos h4]

lemma tryKicks_first_success (g : Game) (t : Piece) (i : ℕ) (hi : i < 5)
    (hfail : ∀ j : ℕ, j < i → collide g t (t.x + (kicks.getD j (0, 0)).1) (t.y + (kicks.getD j (0, 0)).2) = true)
    (hok : collide g t (t.x + (kicks.getD i (0, 0)).1) (t.y + (kicks.getD i (0, 0)).2) = false) :
    tryKicks g t kicks =
      { g with cur := { t with x := t.x + (kicks.getD i (0, 0)).1, y := t.y + (kicks.getD i (0, 0)).2 } } := by
  interval_cases i
  · simp only [kicks, List.getD_cons_zero, List.getD_cons_succ, add_zero] at hok ⊢
    simp only [tryKicks, kicks, add_zero]
    rw [if_neg (by simp [hok])]
  · have h0 := hfail 0 (by omega)
    simp only [kicks, List.getD_cons_zero, List.getD_cons_succ, add_zero] at h0 hok ⊢
    simp only [tryKicks, kicks, add_zero]
    rw [if_pos h0, if_neg (by simp [hok])]
  · have h0 := hfail 0 (by omega)
    have h1 := hfail 1 (by omega)
    simp only [kicks, List.getD_cons_zero, List.getD_cons_succ, add_zero] at h0 h1 hok ⊢
    simp only [tryKicks, kicks, add_zero]
    rw [if_pos h0, if_pos h1, if_neg (by simp [hok])]
  · have h0 := hfail 0 (by omega)
    have h1 := hfail 1 (by omega)
    have h2 := hfail 2 (by omega)
    simp only [kicks, List.getD_cons_zero, List.getD_cons_succ, add_zero] at h0 h1 h2 hok ⊢
    simp only [tryKicks, kicks, add_zero]
    rw [if_pos h0, if_pos h1, if_pos h2, if_neg (by simp [hok])]
  · have h0 := hfail 0 (by omega)
    have h1 := hfail 1 (by omega)
    have h2 := hfail 2 (by omega)
    have h3 := hfail 3 (by omega)
    simp only [kicks, List.getD_cons_zero, List.getD_cons_succ, add_zero] at h0 h1 h2 h3 hok ⊢
    simp only [tryKicks, kicks, add_zero]
    rw [if_pos h0, if_pos h1, if_pos h2, if_pos h3, if_neg (by simp [hok])]

/-! ## C3: rotation and kick resolution -/

/-- C3: rotation is the fixed index transposition (CW sends mask cell
(r, c) to (c, 3-r); CCW sends it to (3-c, r)), and `attempt_rotate`
probes the kick offsets (0,0), (+1,0), (-1,0), (0,-1), (0,+1) in that
order, committing mask and position together at the first non-colliding
offset and leaving the piece completely unchanged when all five collide. -/
theorem attempt_rotate_characterization (g : Game) (cw : Bool) (t : Piece)
    (ht : t = if cw then rotate_cw g.cur else rotate_ccw g.cur) :
    (∀ r c : Fin 4,
      (rotate_cw g.cur).m c (3 - r) = g.cur.m r c ∧
      (rotate_ccw g.cur).m (3 - c) r = g.cur.m r c) ∧
    ((∀ kk ∈ kicks, collide g t (t.x + kk.1) (t.y + kk.2) = true) →
      attempt_rotate g cw = g) ∧
    (∀ i : ℕ, i < 5 →
      (∀ j : ℕ, j < i →
        collide g t (t.x + (kicks.getD j (0, 0)).1) (t.y + (kicks.getD j (0, 0)).2) = true) →
      collide g t (t.x + (kicks.getD i (0, 0)).1) (t.y + (kicks.getD i (0, 0)).2) = false →
      attempt_rotate g cw =
        { g with cur := { t with x := t.x + (kicks.getD i (0, 0)).1,
                                 y := t.y + (kicks.getD i (0, 0)).2 } }) := by
  have hunfold : attempt_rotate g cw = tryKicks g t kicks := by
    simp only [attempt_rotate]
    rw [← ht]
  refine ⟨?_, ?_, ?_⟩
  · intro r c
    have h4 : ∀ i : Fin 4, 3 - (3 - i) = i := by decide
    constructor
    · simp [rotate_cw, h4]
    · simp [rotate_ccw, h4]
  · intro h
    rw [hunfold]
    exact tryKicks_all_fail g t h
  · intro i hi hfail hok
    rw [hunfold]
    exact tryKicks_first_success g t i hi hfail hok

/-- Witness for `attempt_rotate_characterization`: rotating the initial I
piece clockwise on the empty board succeeds at the first kick offset. -/
theorem attempt_rotate_characterization_witness :
    collide gReset (rotate_cw gReset.cur)
        ((rotate_cw gReset.cur).x + (kicks.getD 0 (0, 0)).1)
        ((rotate_cw gReset.cur).y + (kicks.getD 0 (0, 0)).2) = false ∧
    attempt_rotate gReset true =
      { gReset with cur := { rotate_cw gReset.cur with
          x := (rotate_cw gReset.cur).x + (kicks.getD 0 (0, 0)).1,
          y := (rotate_cw gReset.cur).y + (kicks.getD 0 (0, 0)).2 } } :=
  ⟨by decide,
    (attempt_rotate_characterization gReset true (rotate_cw gReset.cur) rfl).2.2
      0 (by omega) (fun j hj => absurd hj (by omega)) (by decide)⟩

/-! ## Helper lemmas: line clearing -/

lemma rowFull_emptyRow : rowFull emptyRow = false := by decide

lemma rowAt_ge (b : Board) (j : ℕ) (h : 20 ≤ j) : rowAt b j = emptyRow := by
  unfold rowAt
  rw [dif_neg (by omega)]

lemma rowAt_shiftDown_zero (b : Board) (r : ℕ) : rowAt (shiftDown b r) 0 = emptyRow := by
  funext c
  simp [rowAt, shiftDown, emptyRow]

lemma rowAt_shiftDown_le (b : Board) (r j : ℕ) (h1 : 1 ≤ j) (h2 : j ≤ r) (h3 : j < 20) :
    rowAt (shiftDown b r) j = rowAt b (j - 1) := by
  funext c
  simp only [rowAt, dif_pos h3, dif_pos (show j - 1 < 20 by omega)]
  simp only [shiftDown]
  rw [if_neg (by omega), if_pos (by simpa using h2)]

lemma rowAt_shiftDown_gt (b : Board) (r j : ℕ) (h : r < j) :
    rowAt (shiftDown b r) j = rowAt b j := by
  by_cases h20 : j < 20
  · funext c
    simp only [rowAt, dif_pos h20]
    simp only [shiftDown]
    rw [if_neg (by omega), if_neg (by omega)]
  · rw [rowAt_ge _ _ (by omega), rowAt_ge _ _ (by omega)]

lemma isFullRowN_shiftDown_zero (b : Board) (r : ℕ) :
    isFullRowN (shiftDown b r) 0 = false := by
  rw [isFullRowN, rowAt_shiftDown_zero, rowFull_emptyRow]

lemma keepN_succ (b : Board) (n : ℕ) :
    keepN b (n + 1) = keepN b n ++ (if isFullRowN b n then [] else [rowAt b n]) := rfl

lemma fullN_succ (b : Board) (n : ℕ) :
    fullN b (n + 1) = fullN b n + (if isFullRowN b n then 1 else 0) := rfl

lemma keepN_length (b : Board) (n : ℕ) : (keepN b n).length + fullN b n = n := by
  induction n with
  | zero => simp [keepN, fullN]
  | succ n ih =>
    rw [keepN_succ, fullN_succ, List.length_append]
    by_cases h : isFullRowN b n = true
    · rw [if_pos h, if_pos h]
      simp only [List.length_nil]
      omega
    · rw [if_neg h, if_neg h]
      simp only [List.length_singleton]
      omega

lemma keepN_shiftDown (b : Board) (r : ℕ) (hr : r < 20) :
    ∀ j, j ≤ r → keepN (shiftDown b r) (j + 1) = emptyRow :: keepN b j ∧
      fullN (shiftDown b r) (j + 1) = fullN b j := by
  intro j
  induction j with
  | zero =>
    intro _
    refine ⟨?_, ?_⟩
    · rw [keepN_succ, isFullRowN_shiftDown_zero, rowAt_shiftDown_zero]
      simp [keepN]
    · rw [fullN_succ, isFullRowN_shiftDown_zero]
      simp [fullN]
  | succ j ih =>
    intro hj
    have hrow : rowAt (shiftDown b r) (j + 1) = rowAt b j := by
      rw [rowAt_shiftDown_le b r (j + 1) (by omega) (by omega) (by omega)]
      simp
    have hfull : isFullRowN (shiftDown b r) (j + 1) = isFullRowN b j := by
      rw [isFullRowN, hrow, isFullRowN]
    obtain ⟨ihk, ihf⟩ := ih (by omega)
    refine ⟨?_, ?_⟩
    · rw [keepN_succ, ihk, hfull, hrow, keepN_succ, List.cons_append]
    · rw [fullN_succ, ihf, hfull, fullN_succ]

lemma fullN_shiftDown_ge (b : Board) (r : ℕ) (hr : r < 20)
    (hfull : isFullRowN b r = true) :
    ∀ k, fullN (shiftDown b r) (r + 1 + k) + 1 = fullN b (r + 1 + k) := by
  intro k
  induction k with
  | zero =>
    have h := (keepN_shiftDown b r hr r (le_refl r)).2
    rw [h, fullN_succ, hfull]
    simp
  | succ k ih =>
    have hrow : rowAt (shiftDown b r) (r + 1 + k) = rowAt b (r + 1 + k) :=
      rowAt_shiftDown_gt b r _ (by omega)
    have hfull2 : isFullRowN (shiftDown b r) (r + 1 + k) = isFullRowN b (r + 1 + k) := by
      rw [isFullRowN, hrow, isFullRowN]
    have e : r + 1 + (k + 1) = (r + 1 + k) + 1 := by omega
    rw [e, fullN_succ, fullN_succ, hfull2]
    omega

lemma fullN_shiftDown_top (b : Board) (r : ℕ) (hr : r < 20)
    (hfull : isFullRowN b r = true) :
    fullN (shiftDown b r) 20 + 1 = fullN b 20 := by
  have h := fullN_shiftDown_ge b r hr hfull (19 - r)
  have e : r + 1 + (19 - r) = 20 := by omega
  rw [e] at h
  exact h


lemma compactList_length (b : Board) (n : ℕ) : (compactList b n).length = n := by
  have h := keepN_length b n
  simp only [compactList, List.length_append, List.length_replicate]
  omega

lemma shiftDown_apply_gt (b : Board) (r : ℕ) (i : Fin 20) (h : r < i.val) :
    shiftDown b r i = b i := by
  funext c
  simp only [shiftDown]
  rw [if_neg (by omega), if_neg (by omega)]

lemma rowAt_val (b : Board) (i : Fin 20) : rowAt b i.val = b i := by
  unfold rowAt
  rw [dif_pos i.isLt]

lemma compactList_shiftDown (b : Board) (r : ℕ) (hr : r < 20)
    (hfull : isFullRowN b r = true) :
    compactList (shiftDown b r) (r + 1) = compactList b (r + 1) := by
  obtain ⟨hk, hf⟩ := keepN_shiftDown b r hr r (le_refl r)
  rw [compactList, hk, hf, compactList, keepN_succ, fullN_succ, hfull]
  rw [if_pos rfl]
  simp only [List.append_nil]
  rw [show fullN b r + 1 = (fullN b r) + 1 from rfl, List.replicate_succ']
  rw [List.append_assoc]
  simp

lemma compactList_not_full (b : Board) (r : ℕ)
    (hfull : isFullRowN b r = false) :
    compactList b (r + 1) = compactList b r ++ [rowAt b r] := by
  rw [compactList, compactList, keepN_succ, fullN_succ, hfull]
  simp only [Bool.false_eq_true, if_false, if_neg]
  rw [← List.append_assoc]
  simp


lemma clearLoopF_spec : ∀ (fuel : ℕ) (b : Board) (r : ℕ), r < 20 →
    21 * fullN b 20 + r + 1 ≤ fuel →
    clearLoopF fuel b r =
      ((fun i => if i.val ≤ r then (compactList b (r + 1)).getD i.val emptyRow else b i),
        fullN b (r + 1)) := by
  intro fuel
  induction fuel with
  | zero =>
    intro b r h1 h2
    omega
  | succ fuel ih =>
    intro b r hr hfuel
    by_cases hfull : isFullRowN b r = true
    · have hfn := fullN_shiftDown_top b r hr hfull
      have hrec := ih (shiftDown b r) r hr (by omega)
      obtain ⟨hk, hf⟩ := keepN_shiftDown b r hr r (le_refl r)
      have hstep : clearLoopF (fuel + 1) b r =
          ((clearLoopF fuel (shiftDown b r) r).1, (clearLoopF fuel (shiftDown b r) r).2 + 1) := by
        simp only [clearLoopF]
        rw [if_pos hr, if_pos hfull]
      rw [hstep, hrec]
      refine Prod.ext ?_ ?_
      · show (fun i => if i.val ≤ r then (compactList (shiftDown b r) (r + 1)).getD i.val emptyRow
            else shiftDown b r i) = _
        funext i
        by_cases hi : i.val ≤ r
        · simp only [if_pos hi]
          rw [compactList_shiftDown b r hr hfull]
        · simp only [if_neg hi]
          exact shiftDown_apply_gt b r i (by omega)
      · show fullN (shiftDown b r) (r + 1) + 1 = _
        rw [hf, fullN_succ, hfull]
        simp
    · have hfull' : isFullRowN b r = false := by simpa using hfull
      rcases r with _ | r'
      · have hstep : clearLoopF (fuel + 1) b 0 = (b, 0) := by
          simp only [clearLoopF]
          rw [if_pos hr, if_neg (by simp [hfull'])]
        rw [hstep]
        refine Prod.ext ?_ ?_
        · show b = _
          funext i
          by_cases hi : i.val ≤ 0
          · simp only [if_pos hi]
            have hi0 : i = ⟨0, by decide⟩ := Fin.ext (show i.val = 0 by omega)
            rw [hi0]
            simp [compactList, fullN_succ, fullN, keepN_succ, keepN, hfull', rowAt]
          · simp only [if_neg hi]
        · show 0 = fullN b 1
          rw [fullN_succ, hfull']
          simp [fullN]
      · have hstep : clearLoopF (fuel + 1) b (r' + 1) = clearLoopF fuel b r' := by
          simp only [clearLoopF]
          rw [if_pos hr, if_neg (by simp [hfull'])]
        have hrec := ih b r' (by omega) (by omega)
        rw [hstep, hrec]
        refine Prod.ext ?_ ?_
        · show (fun i => if i.val ≤ r' then (compactList b (r' + 1)).getD i.val emptyRow else b i) = _
          funext i
          by_cases hi : i.val ≤ r'
          · simp only [if_pos hi, if_pos (show i.val ≤ r' + 1 by omega)]
            rw [compactList_not_full b (r' + 1) hfull']
            rw [List.getD_append]
            rw [compactList_length]
            omega
          · simp only [if_neg hi]
            by_cases hi2 : i.val ≤ r' + 1
            · simp only [if_pos hi2]
              have hiv : i.val = r' + 1 := by omega
              rw [compactList_not_full b (r' + 1) hfull']
              rw [List.getD_append_right]
              · rw [compactList_length, hiv]
                simp only [Nat.sub_self, List.getD_cons_zero]
                rw [← rowAt_val b i, hiv]
              · rw [compactList_length]
                omega
            · simp only [if_neg hi2]
        · show fullN b (r' + 1) = fullN b (r' + 1 + 1)
          rw [fullN_succ b (r' + 1), hfull']
          simp

lemma fullN_le (b : Board) (n : ℕ) : fullN b n ≤ n := by
  induction n with
  | zero => simp [fullN]
  | succ n ih =>
    rw [fullN_succ]
    by_cases h : isFullRowN b n = true
    · rw [if_pos h]
      omega
    · rw [if_neg h]
      omega

lemma clearResult_spec (b : Board) :
    clearResult b =
      ((fun i => (compactList b 20).getD i.val emptyRow), fullN b 20) := by
  have hle := fullN_le b 20
  have h := clearLoopF_spec 441 b 19 (by omega) (by omega)
  rw [clearResult, h]
  refine Prod.ext ?_ rfl
  funext i
  have hi : i.val ≤ 19 := by omega
  simp only [if_pos hi]

lemma keepN_rowFull_false (b : Board) (n : ℕ) :
    ∀ row ∈ keepN b n, rowFull row = false := by
  induction n with
  | zero => simp [keepN]
  | succ n ih =>
    intro row hrow
    rw [keepN_succ] at hrow
    rcases List.mem_append.mp hrow with h | h
    · exact ih row h
    · by_cases hfull : isFullRowN b n = true
      · rw [if_pos hfull] at h
        simp at h
      · rw [if_neg hfull] at h
        simp at h
        rw [h]
        simpa [isFullRowN] using hfull

lemma compactList_rowFull_false (b : Board) (j : ℕ) (hj : j < 20) :
    rowFull ((compactList b 20).getD j emptyRow) = false := by
  have hlen : (compactList b 20).length = 20 := compactList_length b 20
  have hklen := keepN_length b 20
  by_cases hrep : j < fullN b 20
  · rw [compactList, List.getD_append _ _ _ _ (by simpa using hrep)]
    rw [List.getD_eq_getElem _ _ (by simpa using hrep)]
    rw [List.getElem_replicate]
    exact rowFull_emptyRow
  · rw [compactList, List.getD_append_right _ _ _ _ (by simpa using hrep)]
    have hlt : j - (fullN b 20) < (keepN b 20).length := by omega
    rw [List.length_replicate, List.getD_eq_getElem _ _ hlt]
    exact keepN_rowFull_false b 20 _ (List.getElem_mem hlt)

lemma clearResult_no_full (b : Board) (j : ℕ) :
    isFullRowN (clearResult b).1 j = false := by
  by_cases hj : j < 20
  · rw [isFullRowN, clearResult_spec]
    have : rowAt (fun i => (compactList b 20).getD i.val emptyRow) j =
        (compactList b 20).getD j emptyRow := by
      unfold rowAt
      rw [dif_pos hj]
    rw [this]
    exact compactList_rowFull_false b j hj
  · rw [isFullRowN, rowAt_ge _ _ (by omega), rowFull_emptyRow]

theorem clear_lines_pass_characterization (b : Board) :
    (∀ j : ℕ, isFullRowN (clearResult b).1 j = false) ∧
    (clearResult b).2 = fullN b 20 ∧
    (clearResult b).2 ≤ 20 ∧
    (∀ i : Fin 20, i.val < (clearResult b).2 → (clearResult b).1 i = emptyRow) ∧
    (∀ i : Fin 20, (clearResult b).2 ≤ i.val →
      (clearResult b).1 i = (keepN b 20).getD (i.val - (clearResult b).2) emptyRow) := by
  refine ⟨clearResult_no_full b, ?_, ?_, ?_, ?_⟩
  · rw [clearResult_spec]
  · rw [clearResult_spec]
    exact fullN_le b 20
  · intro i hi
    rw [clearResult_spec] at hi ⊢
    show (compactList b 20).getD i.val emptyRow = emptyRow
    have hi2 : i.val < (List.replicate (fullN b 20) emptyRow).length := by
      simp only [List.length_replicate]
      exact hi
    rw [compactList, List.getD_append _ _ _ _ hi2, List.getD_eq_getElem _ _ hi2,
      List.getElem_replicate]
  · intro i hi
    rw [clearResult_spec] at hi ⊢
    show (compactList b 20).getD i.val emptyRow =
      (keepN b 20).getD (i.val - fullN b 20) emptyRow
    have hi2 : (List.replicate (fullN b 20) emptyRow).length ≤ i.val := by
      simp only [List.length_replicate]
      exact hi
    rw [compactList, List.getD_append_right _ _ _ _ hi2, List.length_replicate]

theorem clear_lines_pass_characterization_witness :
    (clearResult bottomFullBoard).2 = 1 ∧
    ((0 : Fin 20).val < (clearResult bottomFullBoard).2 ∧
      (clearResult bottomFullBoard).1 0 = emptyRow) ∧
    ((clearResult bottomFullBoard).2 ≤ (5 : Fin 20).val ∧
      (clearResult bottomFullBoard).1 5 =
        (keepN bottomFullBoard 20).getD ((5 : Fin 20).val - (clearResult bottomFullBoard).2)
          emptyRow) :=
  ⟨by decide,
    ⟨by decide, (clear_lines_pass_characterization bottomFullBoard).2.2.2.1 0 (by decide)⟩,
    ⟨by decide, (clear_lines_pass_characterization bottomFullBoard).2.2.2.2 5 (by decide)⟩⟩

/-! ## Helper lemmas: locking -/

lemma lockBoard_cond_iff (p : Piece) (i : Fin 20) (j : Fin 10) :
    ((List.finRange 4).any (fun r => (List.finRange 4).any fun c =>
        p.m r c && decide (p.y + r.val = i.val) && decide (p.x + c.val = j.val)) = true) ↔
    (∃ r c : Fin 4, p.m r c = true ∧ p.y + r.val = i.val ∧ p.x + c.val = j.val) := by
  simp [List.any_eq_true, Bool.and_eq_true, decide_eq_true_eq, and_assoc]

lemma lockBoard_apply (b : Board) (p : Piece) (i : Fin 20) (j : Fin 10) :
    lockBoard b p i j =
      if ∃ r c : Fin 4, p.m r c = true ∧ p.y + r.val = i.val ∧ p.x + c.val = j.val then
        { filled := true, type := p.type, tint := p.tint }
      else b i j := by
  by_cases h : ∃ r c : Fin 4, p.m r c = true ∧ p.y + r.val = i.val ∧ p.x + c.val = j.val
  · rw [if_pos h]
    unfold lockBoard
    rw [if_pos ((lockBoard_cond_iff p i j).mpr h)]
  · rw [if_neg h]
    unfold lockBoard
    rw [if_neg fun hb => h ((lockBoard_cond_iff p i j).mp hb)]

lemma rowFull_eq_false_iff (row : Row) :
    rowFull row = false ↔ ∃ c : Fin 10, (row c).filled = false := by
  unfold rowFull
  rw [← Bool.not_eq_true, List.all_eq_true]
  constructor
  · intro h
    by_contra hc
    push_neg at hc
    exact h fun c _ => by
      have := hc c
      simp only [Bool.not_eq_false] at this
      exact this
  · rintro ⟨c, hc⟩ hall
    have := hall c (List.mem_finRange c)
    rw [hc] at this
    exact Bool.false_ne_true this

lemma isFullRowN_lockBoard_new_row (b : Board) (p : Piece) (j : ℕ) (hj : j < 20)
    (hfull : isFullRowN (lockBoard b p) j = true)
    (hbefore : isFullRowN b j = false) :
    ∃ r : Fin 4, p.y + r.val = (j : ℤ) := by
  unfold isFullRowN at hfull hbefore
  rw [rowAt] at hfull hbefore
  rw [dif_pos hj] at hfull hbefore
  obtain ⟨c, hc⟩ := (rowFull_eq_false_iff _).mp hbefore
  unfold rowFull at hfull
  rw [List.all_eq_true] at hfull
  have hcell := hfull c (List.mem_finRange c)
  rw [lockBoard_apply] at hcell
  by_cases h : ∃ r cc : Fin 4, p.m r cc = true ∧
      p.y + r.val = (⟨j, hj⟩ : Fin 20).val ∧ p.x + cc.val = c.val
  · obtain ⟨r, cc, _, hy, _⟩ := h
    exact ⟨r, hy⟩
  · rw [if_neg h] at hcell
    rw [hc] at hcell
    exact absurd hcell (by simp)

lemma fullN_eq_filter_length (b : Board) (n : ℕ) :
    fullN b n = ((List.range n).filter fun j => isFullRowN b j).length := by
  induction n with
  | zero => simp [fullN]
  | succ n ih =>
    rw [fullN_succ, List.range_succ, List.filter_append, List.length_append, ih]
    by_cases h : isFullRowN b n = true
    · simp [h]
    · simp [h]

lemma fullN_lockBoard_le_four (b : Board) (p : Piece)
    (hb : ∀ j : ℕ, isFullRowN b j = false) :
    fullN (lockBoard b p) 20 ≤ 4 := by
  rw [fullN_eq_filter_length]
  set L := (List.range 20).filter (fun j => isFullRowN (lockBoard b p) j) with hL
  have hmem : ∀ j ∈ L, (j : ℤ) - p.y ∈ Finset.Ico (0 : ℤ) 4 := by
    intro j hj
    rw [hL, List.mem_filter, List.mem_range] at hj
    obtain ⟨hj20, hjf⟩ := hj
    obtain ⟨r, hr⟩ := isFullRowN_lockBoard_new_row b p j hj20 hjf (hb j)
    have h4 := r.isLt
    rw [Finset.mem_Ico]
    omega
  have hnodupL : L.Nodup := (List.nodup_range 20).filter _
  have hinj : Function.Injective (fun j : ℕ => (j : ℤ) - p.y) := by
    intro a b hab
    simp only at hab
    omega
  have hnodup : (L.map fun j : ℕ => (j : ℤ) - p.y).Nodup := hnodupL.map hinj
  have hsub : (L.map fun j : ℕ => (j : ℤ) - p.y).toFinset ⊆ Finset.Ico (0 : ℤ) 4 := by
    intro x hx
    rw [List.mem_toFinset, List.mem_map] at hx
    obtain ⟨j, hj, rfl⟩ := hx
    exact hmem j hj
  have hcard := Finset.card_le_card hsub
  rw [List.toFinset_card_of_nodup hnodup] at hcard
  rw [List.length_map] at hcard
  have hico : (Finset.Ico (0 : ℤ) 4).card = 4 := by decide
  omega

/-! ## Helper lemmas: how each operation touches the board -/

lemma move_left_board (g : Game) : (move_left g).board = g.board := by
  unfold move_left
  split <;> rfl

lemma move_right_board (g : Game) : (move_right g).board = g.board := by
  unfold move_right
  split <;> rfl

lemma tryKicks_board (g : Game) (t : Piece) (l : List (ℤ × ℤ)) :
    (tryKicks g t l).board = g.board := by
  induction l with
  | nil => rfl
  | cons kk rest ih =>
    unfold tryKicks
    split
    · exact ih
    · rfl

lemma attempt_rotate_board (g : Game) (cw : Bool) :
    (attempt_rotate g cw).board = g.board := by
  unfold attempt_rotate
  exact tryKicks_board g _ kicks

lemma spawn_piece_board (g : Game) (k : Fin 7) (ty : ℕ) :
    (spawn_piece g k ty).board = g.board := by
  unfold spawn_piece
  dsimp only []
  split <;> rfl

lemma hold_piece_board (g : Game) (k : Fin 7) (ty : ℕ) :
    (hold_piece g k ty).board = g.board := by
  unfold hold_piece
  split
  · split
    · dsimp only []
      rw [show ∀ g2 : Game, ({ g2 with can_hold := false } : Game).board = g2.board from fun _ => rfl]
      exact spawn_piece_board _ k ty
    · dsimp only []
      split <;> rfl
  · rfl

lemma clear_lines_board (g : Game) :
    (clear_lines g).board = (clearResult g.board).1 := by
  unfold clear_lines
  dsimp only []
  split <;> rfl

lemma lock_piece_board (g : Game) :
    (lock_piece g).board = lockBoard g.board g.cur := rfl

lemma dropLoopF_board (fuel : ℕ) (g : Game) :
    (dropLoopF fuel g).board = g.board := by
  induction fuel generalizing g with
  | zero => rfl
  | succ fuel ih =>
    unfold dropLoopF
    split
    · rfl
    · rw [ih]

lemma soft_step_board (g : Game) (k : Fin 7) (ty : ℕ) :
    (soft_step g k ty).board = g.board ∨
    (soft_step g k ty).board = (clearResult (lockBoard g.board g.cur)).1 := by
  unfold soft_step
  split
  · right
    rw [spawn_piece_board, clear_lines_board, lock_piece_board]
  · left
    rfl

lemma hard_drop_board (g : Game) (k : Fin 7) (ty : ℕ) :
    (hard_drop g k ty).board =
      (clearResult (lockBoard g.board (dropLoopF 64 g).cur)).1 := by
  unfold hard_drop
  rw [spawn_piece_board, clear_lines_board, lock_piece_board, dropLoopF_board]

lemma emptyBoard_no_full (j : ℕ) : isFullRowN emptyBoard j = false := by
  unfold isFullRowN rowAt
  split
  · exact rowFull_emptyRow
  · exact rowFull_emptyRow

lemma reachable_no_full {g : Game} (h : Reachable g) :
    ∀ j : ℕ, isFullRowN g.board j = false := by
  induction h with
  | reset k1 t1 k2 t2 => exact fun j => emptyBoard_no_full j
  | left h hgo ih =>
    intro j
    rw [move_left_board]
    exact ih j
  | right h hgo ih =>
    intro j
    rw [move_right_board]
    exact ih j
  | rot cw h hgo ih =>
    intro j
    rw [attempt_rotate_board]
    exact ih j
  | soft k ty h hgo ih =>
    intro j
    rcases soft_step_board _ k ty with hb | hb
    · rw [hb]
      exact ih j
    · rw [hb]
      exact clearResult_no_full _ j
  | hard k ty h hgo ih =>
    intro j
    rw [hard_drop_board]
    exact clearResult_no_full _ j
  | holdOp k ty h hgo ih =>
    intro j
    rw [hold_piece_board]
    exact ih j

/-! ## C6: a lock event clears at most four rows -/

/-- C6: from any reachable state the board entering a lock has no full
row, a lock touches at most the four rows spanned by the mask, and hence
the line-clear pass of a lock event (from a gravity step or from the
hard-drop descent) counts at most 4 cleared rows — the index into the
5-entry score table stays in bounds. -/
theorem lock_event_clears_at_most_four (g : Game) (h : Reachable g) :
    (clearResult (lock_piece g).board).2 ≤ 4 ∧
    (clearResult (lock_piece (dropLoopF 64 g)).board).2 ≤ 4 := by
  have hb := reachable_no_full h
  constructor
  · rw [lock_piece_board, clearResult_spec]
    exact fullN_lockBoard_le_four g.board g.cur hb
  · rw [lock_piece_board, dropLoopF_board, clearResult_spec]
    exact fullN_lockBoard_le_four g.board _ hb

/-- Witness for `lock_event_clears_at_most_four` at the reset state. -/
theorem lock_event_clears_at_most_four_witness :
    (clearResult (lock_piece gReset).board).2 ≤ 4 :=
  (lock_event_clears_at_most_four gReset (Reachable.reset 0 0 0 0)).1

/-! ## Helper lemmas: scoring invariants -/



lemma scoreInv_clear_lines {g : Game} (h : ScoreInv g) : ScoreInv (clear_lines g) := by
  unfold clear_lines
  dsimp only []
  split
  · exact ⟨rfl, rfl⟩
  · exact h

lemma scoreInv_move_left {g : Game} (h : ScoreInv g) : ScoreInv (move_left g) := by
  unfold move_left
  split
  · exact h
  · exact h

lemma scoreInv_move_right {g : Game} (h : ScoreInv g) : ScoreInv (move_right g) := by
  unfold move_right
  split
  · exact h
  · exact h

lemma scoreInv_tryKicks {g : Game} (t : Piece) (l : List (ℤ × ℤ)) (h : ScoreInv g) :
    ScoreInv (tryKicks g t l) := by
  induction l with
  | nil => exact h
  | cons kk rest ih =>
    unfold tryKicks
    split
    · exact ih
    · exact h

lemma scoreInv_attempt_rotate {g : Game} (cw : Bool) (h : ScoreInv g) :
    ScoreInv (attempt_rotate g cw) := by
  unfold attempt_rotate
  exact scoreInv_tryKicks _ kicks h

lemma scoreInv_spawn {g : Game} (k : Fin 7) (ty : ℕ) (h : ScoreInv g) :
    ScoreInv (spawn_piece g k ty) := by
  unfold spawn_piece
  dsimp only []
  split
  · exact h
  · exact h

lemma scoreInv_lock {g : Game} (h : ScoreInv g) : ScoreInv (lock_piece g) := h

lemma scoreInv_hold {g : Game} (k : Fin 7) (ty : ℕ) (h : ScoreInv g) :
    ScoreInv (hold_piece g k ty) := by
  unfold hold_piece
  split
  · split
    · dsimp only []
      exact scoreInv_spawn k ty h
    · dsimp only []
      split
      · exact h
      · exact h
  · exact h

lemma scoreInv_dropLoopF {g : Game} (fuel : ℕ) (h : ScoreInv g) :
    ScoreInv (dropLoopF fuel g) := by
  induction fuel generalizing g with
  | zero => exact h
  | succ fuel ih =>
    unfold dropLoopF
    split
    · exact h
    · exact ih h

lemma scoreInv_soft_step {g : Game} (k : Fin 7) (ty : ℕ) (h : ScoreInv g) :
    ScoreInv (soft_step g k ty) := by
  unfold soft_step
  split
  · exact scoreInv_spawn k ty (scoreInv_clear_lines (scoreInv_lock h))
  · exact h

lemma scoreInv_hard_drop {g : Game} (k : Fin 7) (ty : ℕ) (h : ScoreInv g) :
    ScoreInv (hard_drop g k ty) := by
  unfold hard_drop
  exact scoreInv_spawn k ty (scoreInv_clear_lines (scoreInv_lock (scoreInv_dropLoopF 64 h)))

lemma scoreInv_reset (k1 : Fin 7) (t1 : ℕ) (k2 : Fin 7) (t2 : ℕ) :
    ScoreInv (game_reset k1 t1 k2 t2) := by
  constructor
  · show (0 : ℕ) = 0 / 10
    norm_num
  · show (900 : ℤ) = max 90 (900 - 70 * ((0 : ℕ) : ℤ))
    decide

lemma reachable_scoreInv {g : Game} (h : Reachable g) : ScoreInv g := by
  induction h with
  | reset k1 t1 k2 t2 => exact scoreInv_reset k1 t1 k2 t2
  | left h hgo ih => exact scoreInv_move_left ih
  | right h hgo ih => exact scoreInv_move_right ih
  | rot cw h hgo ih => exact scoreInv_attempt_rotate cw ih
  | soft k ty h hgo ih => exact scoreInv_soft_step k ty ih
  | hard k ty h hgo ih => exact scoreInv_hard_drop k ty ih
  | holdOp k ty h hgo ih => exact scoreInv_hold k ty ih

/-! ## C5: scoring, lines, level and fall-interval updates -/

/-- C5: a lock event clearing `cleared` rows (0 to 4) adds
`score_tbl[cleared] * (level + 1)` to the score using the pre-update
level, adds `cleared` to `lines`, recomputes `level = lines / 10` and
`fall_ms = max(90, 900 - 70*level)` (non-increasing in the level, floored
at 90).  The two stated invariants hold in every reachable frame state,
as the last conjunct records. -/
theorem clear_lines_scoring (g : Game)
    (h1 : g.level = g.lines / 10)
    (h2 : g.fall_ms = max 90 (900 - 70 * (g.level : ℤ)))
    (hcl : (clearResult g.board).2 ≤ 4) :
    (score_tbl 0, score_tbl 1, score_tbl 2, score_tbl 3, score_tbl 4) =
      (0, 40, 100, 300, 1200) ∧
    (clear_lines g).score =
      g.score + score_tbl (clearResult g.board).2 * (g.level + 1) ∧
    (clear_lines g).lines = g.lines + (clearResult g.board).2 ∧
    (clear_lines g).level = (clear_lines g).lines / 10 ∧
    (clear_lines g).fall_ms = max 90 (900 - 70 * ((clear_lines g).level : ℤ)) ∧
    (∀ l1 l2 : ℕ, l1 ≤ l2 →
      max 90 (900 - 70 * (l2 : ℤ)) ≤ max 90 (900 - 70 * (l1 : ℤ)) ∧
      (90 : ℤ) ≤ max 90 (900 - 70 * (l2 : ℤ))) := by
  refine ⟨by decide, ?_, ?_, ?_, ?_, ?_⟩
  · unfold clear_lines
    dsimp only []
    split
    · rfl
    · next hz =>
      have hz0 : (clearResult g.board).2 = 0 := by
        by_contra hc
        exact hz hc
      rw [hz0]
      simp [score_tbl]
  · unfold clear_lines
    dsimp only []
    split
    · rfl
    · next hz =>
      have hz0 : (clearResult g.board).2 = 0 := by
        by_contra hc
        exact hz hc
      rw [hz0]
      rfl
  · unfold clear_lines
    dsimp only []
    split
    · rfl
    · exact h1
  · unfold clear_lines
    dsimp only []
    split
    · rfl
    · rw [h2, h1]
  · intro l1 l2 hl
    constructor
    · apply max_le_max (le_refl (90 : ℤ))
      have : (l1 : ℤ) ≤ (l2 : ℤ) := by exact_mod_cast hl
      omega
    · exact le_max_left _ _

/-- Witness for `clear_lines_scoring`: clearing the full bottom row from
the reset scoring state adds 40 points. -/
theorem clear_lines_scoring_witness :
    gBottomFull.level = gBottomFull.lines / 10 ∧
    gBottomFull.fall_ms = max 90 (900 - 70 * (gBottomFull.level : ℤ)) ∧
    (clearResult gBottomFull.board).2 ≤ 4 ∧
    (clear_lines gBottomFull).score =
      gBottomFull.score + score_tbl (clearResult gBottomFull.board).2 * (gBottomFull.level + 1) :=
  ⟨by decide, by decide, by decide,
    (clear_lines_scoring gBottomFull (by decide) (by decide) (by decide)).2.1⟩

/-! ## Helper lemmas: filled-cell counting for lock -/



lemma collide_false_in_bounds (g : Game) (p : Piece) (nx ny : ℤ)
    (hnc : collide g p nx ny = false) :
    ∀ r c : Fin 4, p.m r c = true →
      0 ≤ nx + c.val ∧ nx + c.val < 10 ∧ 0 ≤ ny + r.val ∧ ny + r.val < 20 ∧
      boardFilled g.board (ny + r.val) (nx + c.val) = false := by
  intro r c hm
  have hne : ¬ ∃ r c : Fin 4, p.m r c = true ∧
      (nx + c.val < 0 ∨ 10 ≤ nx + c.val ∨ ny + r.val < 0 ∨ 20 ≤ ny + r.val ∨
        ∃ (yy : Fin 20) (xx : Fin 10),
          (yy.val : ℤ) = ny + r.val ∧ (xx.val : ℤ) = nx + c.val ∧
          (g.board yy xx).filled = true) := by
    intro hex
    rw [(collide_eq_true_iff g p nx ny).mpr hex] at hnc
    exact Bool.true_eq_false.mp hnc
  push_neg at hne
  obtain ⟨h1, h2, h3, h4, h5⟩ := hne r c hm
  refine ⟨by omega, by omega, by omega, by omega, ?_⟩
  rw [← Bool.not_eq_true]
  intro hbf
  obtain ⟨yy, xx, hyy, hxx, hfill⟩ := (boardFilled_eq_true_iff _ _ _).mp hbf
  exact absurd hfill (by simpa using h5 yy xx hyy hxx)

lemma filledCount_lockBoard (g : Game)
    (hnc : collide g g.cur g.cur.x g.cur.y = false) :
    filledCount (lockBoard g.board g.cur) = filledCount g.board + maskCount g.cur := by
  classical
  have hin := collide_false_in_bounds g g.cur g.cur.x g.cur.y hnc
  set p := g.cur with hp
  set b := g.board with hb
  have hkey : ∀ r c : Fin 4, p.m r c = true →
      (((p.y + r.val).toNat % 20 : ℕ) : ℤ) = p.y + r.val ∧
      (((p.x + c.val).toNat % 10 : ℕ) : ℤ) = p.x + c.val := by
    intro r c hm
    obtain ⟨h1, h2, h3, h4, _⟩ := hin r c hm
    constructor <;> omega
  have hcellfalse : ∀ r c : Fin 4, p.m r c = true →
      (b ⟨(p.y + r.val).toNat % 20, Nat.mod_lt _ (by norm_num)⟩
        ⟨(p.x + c.val).toNat % 10, Nat.mod_lt _ (by norm_num)⟩).filled = false := by
    intro r c hm
    obtain ⟨h1, h2, h3, h4, h5⟩ := hin r c hm
    obtain ⟨e1, e2⟩ := hkey r c hm
    rw [← Bool.not_eq_true]
    intro hfill
    have := (boardFilled_eq_true_iff b (p.y + r.val) (p.x + c.val)).mpr
      ⟨_, _, e1, e2, hfill⟩
    rw [h5] at this
    exact Bool.false_ne_true this
  have hcell : ∀ (i : Fin 20) (j : Fin 10),
      ((lockBoard b p i j).filled = true) ↔
      ((b i j).filled = true ∨
        ∃ r c : Fin 4, p.m r c = true ∧ p.y + r.val = i.val ∧ p.x + c.val = j.val) := by
    intro i j
    rw [lockBoard_apply]
    by_cases h : ∃ r c : Fin 4, p.m r c = true ∧ p.y + r.val = i.val ∧ p.x + c.val = j.val
    · rw [if_pos h]
      simp [h]
    · rw [if_neg h]
      simp [h]
  have hφeq : ∀ (r c : Fin 4) (i : Fin 20) (j : Fin 10), p.m r c = true →
      (((⟨(p.y + r.val).toNat % 20, Nat.mod_lt _ (by norm_num)⟩ : Fin 20),
        (⟨(p.x + c.val).toNat % 10, Nat.mod_lt _ (by norm_num)⟩ : Fin 10)) = (i, j) ↔
        (p.y + r.val = i.val ∧ p.x + c.val = j.val)) := by
    intro r c i j hm
    obtain ⟨e1, e2⟩ := hkey r c hm
    constructor
    · intro hpair
      have hfst := congrArg Prod.fst hpair
      have hsnd := congrArg Prod.snd hpair
      have v1 : (p.y + r.val).toNat % 20 = i.val := congrArg Fin.val hfst
      have v2 : (p.x + c.val).toNat % 10 = j.val := congrArg Fin.val hsnd
      omega
    · intro ⟨hy, hx⟩
      have v1 : (p.y + r.val).toNat % 20 = i.val := by omega
      have v2 : (p.x + c.val).toNat % 10 = j.val := by omega
      rw [Prod.mk.injEq]
      exact ⟨Fin.ext v1, Fin.ext v2⟩
  have hunion : (Finset.univ.filter fun ij : Fin 20 × Fin 10 =>
        (lockBoard b p ij.1 ij.2).filled = true) =
      (Finset.univ.filter fun ij : Fin 20 × Fin 10 => (b ij.1 ij.2).filled = true) ∪
      ((Finset.univ.filter fun rc : Fin 4 × Fin 4 => p.m rc.1 rc.2 = true).image
        (fun rc : Fin 4 × Fin 4 =>
          ((⟨(p.y + rc.1.val).toNat % 20, Nat.mod_lt _ (by norm_num)⟩ : Fin 20),
           (⟨(p.x + rc.2.val).toNat % 10, Nat.mod_lt _ (by norm_num)⟩ : Fin 10)))) := by
    ext ij
    obtain ⟨i, j⟩ := ij
    simp only [Finset.mem_filter, Finset.mem_univ, true_and, Finset.mem_union,
      Finset.mem_image]
    rw [hcell i j]
    constructor
    · rintro (hbf | ⟨r, c, hm, hy, hx⟩)
      · exact Or.inl hbf
      · exact Or.inr ⟨(r, c), by simpa using hm, (hφeq r c i j hm).mpr ⟨hy, hx⟩⟩
    · rintro (hbf | ⟨⟨r, c⟩, hm, hφ⟩)
      · exact Or.inl hbf
      · have hm2 : p.m r c = true := by simpa using hm
        obtain ⟨hy, hx⟩ := (hφeq r c i j hm2).mp hφ
        exact Or.inr ⟨r, c, hm2, hy, hx⟩
  have hdisj : Disjoint
      (Finset.univ.filter fun ij : Fin 20 × Fin 10 => (b ij.1 ij.2).filled = true)
      ((Finset.univ.filter fun rc : Fin 4 × Fin 4 => p.m rc.1 rc.2 = true).image
        (fun rc : Fin 4 × Fin 4 =>
          ((⟨(p.y + rc.1.val).toNat % 20, Nat.mod_lt _ (by norm_num)⟩ : Fin 20),
           (⟨(p.x + rc.2.val).toNat % 10, Nat.mod_lt _ (by norm_num)⟩ : Fin 10)))) := by
    rw [Finset.disjoint_left]
    rintro ⟨i, j⟩ hmem himg
    rw [Finset.mem_filter] at hmem
    rw [Finset.mem_image] at himg
    obtain ⟨⟨r, c⟩, hm, hφ⟩ := himg
    have hm2 : p.m r c = true := by
      simpa using (Finset.mem_filter.mp hm).2
    have hfalse := hcellfalse r c hm2
    obtain ⟨hy, hx⟩ := (hφeq r c i j hm2).mp hφ
    obtain ⟨e1, e2⟩ := hkey r c hm2
    have hifin : (⟨(p.y + r.val).toNat % 20, Nat.mod_lt _ (by norm_num)⟩ : Fin 20) = i :=
      Fin.ext (show (p.y + r.val).toNat % 20 = i.val by omega)
    have hjfin : (⟨(p.x + c.val).toNat % 10, Nat.mod_lt _ (by norm_num)⟩ : Fin 10) = j :=
      Fin.ext (show (p.x + c.val).toNat % 10 = j.val by omega)
    rw [hifin, hjfin] at hfalse
    rw [hmem.2] at hfalse
    exact Bool.true_eq_false.mp hfalse
  have hinj : Set.InjOn
      (fun rc : Fin 4 × Fin 4 =>
        ((⟨(p.y + rc.1.val).toNat % 20, Nat.mod_lt _ (by norm_num)⟩ : Fin 20),
         (⟨(p.x + rc.2.val).toNat % 10, Nat.mod_lt _ (by norm_num)⟩ : Fin 10)))
      (Finset.univ.filter fun rc : Fin 4 × Fin 4 => p.m rc.1 rc.2 = true) := by
    rintro ⟨r1, c1⟩ hm1 ⟨r2, c2⟩ hm2 heq
    have hmm1 : p.m r1 c1 = true := by simpa using (Finset.mem_filter.mp hm1).2
    have hmm2 : p.m r2 c2 = true := by simpa using (Finset.mem_filter.mp hm2).2
    obtain ⟨e11, e12⟩ := hkey r1 c1 hmm1
    obtain ⟨e21, e22⟩ := hkey r2 c2 hmm2
    have v1 : (p.y + r1.val).toNat % 20 = (p.y + r2.val).toNat % 20 :=
      congrArg Fin.val (congrArg Prod.fst heq)
    have v2 : (p.x + c1.val).toNat % 10 = (p.x + c2.val).toNat % 10 :=
      congrArg Fin.val (congrArg Prod.snd heq)
    have hr : r1 = r2 := Fin.ext (by omega)
    have hc : c1 = c2 := Fin.ext (by omega)
    rw [hr, hc]
  rw [filledCount, filledCount, maskCount, hunion,
    Finset.card_union_of_disjoint hdisj, Finset.card_image_of_injOn hinj]

/-! ## C7: locking a piece -/

/-- C7: `lock_piece` overwrites exactly the board cells hit by a set mask
cell (with filled flag, visual type and tint of the piece); set cells
whose absolute coordinates lie off the board match no board cell and are
silently dropped; every other cell and all non-board state (in particular
`game_over` — no signal is raised) are unchanged; and a lock whose piece
sits collision-free (all cells in bounds on empty cells, the situation of
every real lock event) adds exactly the mask population count to the
number of filled cells. -/
theorem lock_piece_characterization (g : Game) :
    (∀ (i : Fin 20) (j : Fin 10),
      (lock_piece g).board i j =
        if ∃ r c : Fin 4, g.cur.m r c = true ∧
            g.cur.y + r.val = i.val ∧ g.cur.x + c.val = j.val
        then { filled := true, type := g.cur.type, tint := g.cur.tint }
        else g.board i j) ∧
    ((lock_piece g).cur = g.cur ∧ (lock_piece g).next = g.next ∧
     (lock_piece g).hold = g.hold ∧ (lock_piece g).game_over = g.game_over ∧
     (lock_piece g).score = g.score ∧ (lock_piece g).lines = g.lines ∧
     (lock_piece g).level = g.level ∧ (lock_piece g).fall_ms = g.fall_ms ∧
     (lock_piece g).can_hold = g.can_hold ∧ (lock_piece g).has_hold = g.has_hold) ∧
    (collide g g.cur g.cur.x g.cur.y = false →
      filledCount (lock_piece g).board = filledCount g.board + maskCount g.cur) := by
  refine ⟨?_, ⟨rfl, rfl, rfl, rfl, rfl, rfl, rfl, rfl, rfl, rfl⟩, ?_⟩
  · intro i j
    rw [lock_piece_board]
    exact lockBoard_apply g.board g.cur i j
  · intro hnc
    rw [lock_piece_board]
    exact filledCount_lockBoard g hnc

/-- Witness for `lock_piece_characterization`: locking the freshly spawned
I piece on the empty board adds exactly 4 filled cells. -/
theorem lock_piece_characterization_witness :
    collide gReset gReset.cur gReset.cur.x gReset.cur.y = false ∧
    filledCount (lock_piece gReset).board = filledCount gReset.board + maskCount gReset.cur :=
  ⟨by decide, (lock_piece_characterization gReset).2.2 (by decide)⟩

/-! ## Helper lemmas: hold and spawn -/

lemma hold_piece_disabled (g : Game) (k : Fin 7) (ty : ℕ) (h1 : g.can_hold = false) :
    hold_piece g k ty = g := by
  unfold hold_piece
  rw [if_neg (by simp [h1])]



lemma spawn_piece_fields (g : Game) (k : Fin 7) (ty : ℕ) :
    (spawn_piece g k ty).board = g.board ∧
    (spawn_piece g k ty).cur = { g.next with x := 10 / 2 - 2, y := 0 } ∧
    (spawn_piece g k ty).next = piece_from_k k ty ∧
    (spawn_piece g k ty).hold = g.hold ∧
    (spawn_piece g k ty).has_hold = g.has_hold ∧
    (spawn_piece g k ty).can_hold = true ∧
    (spawn_piece g k ty).game_over = (g.game_over || spawnCollides g) ∧
    (spawn_piece g k ty).score = g.score ∧
    (spawn_piece g k ty).lines = g.lines ∧
    (spawn_piece g k ty).level = g.level ∧
    (spawn_piece g k ty).fall_ms = g.fall_ms := by
  have hgo : (spawn_piece g k ty).game_over = (g.game_over || spawnCollides g) := by
    unfold spawn_piece
    dsimp only []
    split
    · next hcol =>
        have hcol2 : spawnCollides g = true := hcol
        rw [hcol2]
        simp
    · next hcol =>
        have hcol2 : spawnCollides g = false := by
          rw [← Bool.not_eq_true]
          exact fun hx => hcol hx
        rw [hcol2]
        simp
  refine ⟨?_, ?_, ?_, ?_, ?_, ?_, hgo, ?_, ?_, ?_, ?_⟩ <;>
    (unfold spawn_piece
     dsimp only []
     try (split <;> rfl)
     try rfl)

lemma hold_piece_first_eq (g : Game) (k : Fin 7) (ty : ℕ)
    (h1 : g.can_hold = true) (h2 : g.has_hold = false) :
    hold_piece g k ty =
      { spawn_piece { g with hold := g.cur, has_hold := true } k ty with can_hold := false } := by
  unfold hold_piece
  rw [if_pos h1, if_pos (by simp [h2])]

lemma spawnCollides_congr (g1 g2 : Game) (hb : g1.board = g2.board)
    (hn : g1.next = g2.next) : spawnCollides g1 = spawnCollides g2 := by
  unfold spawnCollides collide boardFilled
  rw [hb, hn]

lemma hold_piece_swap_record (g : Game) (k : Fin 7) (ty : ℕ)
    (h1 : g.can_hold = true) (h2 : g.has_hold = true) :
    hold_piece g k ty =
      { board := g.board
        cur := { g.hold with x := 10 / 2 - 2, y := 0 }
        next := g.next
        hold := g.cur
        has_hold := g.has_hold
        can_hold := false
        game_over := (g.game_over || holdCollides g)
        score := g.score
        lines := g.lines
        level := g.level
        fall_ms := g.fall_ms
        fall_accum := g.fall_accum } := by
  unfold hold_piece
  rw [if_pos h1, if_neg (by simp [h2])]
  dsimp only []
  split
  · next hcol =>
      have hcol2 : holdCollides g = true := hcol
      rw [hcol2]
      simp
  · next hcol =>
      have hcol2 : holdCollides g = false := by
        rw [← Bool.not_eq_true]
        exact fun hx => hcol hx
      rw [hcol2]
      simp

lemma move_left_can_hold (g : Game) : (move_left g).can_hold = g.can_hold := by
  unfold move_left
  split <;> rfl

lemma move_right_can_hold (g : Game) : (move_right g).can_hold = g.can_hold := by
  unfold move_right
  split <;> rfl

lemma tryKicks_can_hold (g : Game) (t : Piece) (l : List (ℤ × ℤ)) :
    (tryKicks g t l).can_hold = g.can_hold := by
  induction l with
  | nil => rfl
  | cons kk rest ih =>
    unfold tryKicks
    split
    · exact ih
    · rfl

lemma attempt_rotate_can_hold (g : Game) (cw : Bool) :
    (attempt_rotate g cw).can_hold = g.can_hold := by
  unfold attempt_rotate
  exact tryKicks_can_hold g _ kicks

lemma clear_lines_can_hold (g : Game) : (clear_lines g).can_hold = g.can_hold := by
  unfold clear_lines
  dsimp only []
  split <;> rfl

/-! ## C8: hold semantics -/

/-- C8: a Hold with `can_hold = false` is a strict no-op; with an empty
hold slot it stores the current piece, sets `has_hold`, and spawns the
lookahead piece (game over exactly on immediate spawn collision); with an
occupied slot it swaps current and hold, repositions the swapped-in piece
at the spawn column and row 0, and flags game over on immediate
collision.  In every case `can_hold` is false immediately afterwards, and
of all engine operations only a spawn re-arms it. -/
theorem hold_piece_characterization (g : Game) (k : Fin 7) (ty : ℕ) :
    (g.can_hold = false → hold_piece g k ty = g) ∧
    (g.can_hold = true → g.has_hold = false →
      (hold_piece g k ty).hold = g.cur ∧
      (hold_piece g k ty).has_hold = true ∧
      (hold_piece g k ty).cur = { g.next with x := 10 / 2 - 2, y := 0 } ∧
      (hold_piece g k ty).next = piece_from_k k ty ∧
      (hold_piece g k ty).game_over = (g.game_over || spawnCollides g) ∧
      (hold_piece g k ty).board = g.board) ∧
    (g.can_hold = true → g.has_hold = true →
      (hold_piece g k ty).hold = g.cur ∧
      (hold_piece g k ty).cur = { g.hold with x := 10 / 2 - 2, y := 0 } ∧
      (hold_piece g k ty).next = g.next ∧
      (hold_piece g k ty).game_over = (g.game_over || holdCollides g) ∧
      (hold_piece g k ty).board = g.board) ∧
    (hold_piece g k ty).can_hold = false ∧
    ((move_left g).can_hold = g.can_hold ∧
     (move_right g).can_hold = g.can_hold ∧
     (∀ cw : Bool, (attempt_rotate g cw).can_hold = g.can_hold) ∧
     (lock_piece g).can_hold = g.can_hold ∧
     (clear_lines g).can_hold = g.can_hold ∧
     (spawn_piece g k ty).can_hold = true) := by
  refine ⟨hold_piece_disabled g k ty, ?_, ?_, ?_,
    move_left_can_hold g, move_right_can_hold g, attempt_rotate_can_hold g,
    rfl, clear_lines_can_hold g, (spawn_piece_fields g k ty).2.2.2.2.2.1⟩
  · intro h1 h2
    rw [hold_piece_first_eq g k ty h1 h2]
    have hf := spawn_piece_fields { g with hold := g.cur, has_hold := true } k ty
    refine ⟨?_, ?_, ?_, ?_, ?_, ?_⟩
    · show (spawn_piece { g with hold := g.cur, has_hold := true } k ty).hold = g.cur
      rw [hf.2.2.2.1]
    · show (spawn_piece { g with hold := g.cur, has_hold := true } k ty).has_hold = true
      rw [hf.2.2.2.2.1]
    · show (spawn_piece { g with hold := g.cur, has_hold := true } k ty).cur = _
      rw [hf.2.1]
    · show (spawn_piece { g with hold := g.cur, has_hold := true } k ty).next = _
      rw [hf.2.2.1]
    · show (spawn_piece { g with hold := g.cur, has_hold := true } k ty).game_over = _
      rw [hf.2.2.2.2.2.2.1]
      rw [spawnCollides_congr { g with hold := g.cur, has_hold := true } g rfl rfl]
    · show (spawn_piece { g with hold := g.cur, has_hold := true } k ty).board = _
      rw [hf.1]
  · intro h1 h2
    rw [hold_piece_swap_record g k ty h1 h2]
    exact ⟨rfl, rfl, rfl, rfl, rfl⟩
  · by_cases h1 : g.can_hold = true
    · by_cases h2 : g.has_hold = true
      · rw [hold_piece_swap_record g k ty h1 h2]
      · rw [hold_piece_first_eq g k ty h1 (by simpa using h2)]
    · rw [hold_piece_disabled g k ty (by simpa using h1)]
      simpa using h1

/-- Witness for `hold_piece_characterization`: holding from the reset
state stores the current piece and promotes the lookahead piece. -/
theorem hold_piece_characterization_witness :
    gReset.can_hold = true ∧ gReset.has_hold = false ∧
    (hold_piece gReset 0 0).hold = gReset.cur ∧
    (hold_piece gReset 0 0).can_hold = false :=
  ⟨by decide, by decide,
    ((hold_piece_characterization gReset 0 0).2.1 (by decide) (by decide)).1,
    (hold_piece_characterization gReset 0 0).2.2.2.1⟩

lemma move_left_game_over (g : Game) : (move_left g).game_over = g.game_over := by
  unfold move_left
  split <;> rfl

lemma move_right_game_over (g : Game) : (move_right g).game_over = g.game_over := by
  unfold move_right
  split <;> rfl

lemma tryKicks_game_over (g : Game) (t : Piece) (l : List (ℤ × ℤ)) :
    (tryKicks g t l).game_over = g.game_over := by
  induction l with
  | nil => rfl
  | cons kk rest ih =>
    unfold tryKicks
    split
    · exact ih
    · rfl

lemma attempt_rotate_game_over (g : Game) (cw : Bool) :
    (attempt_rotate g cw).game_over = g.game_over := by
  unfold attempt_rotate
  exact tryKicks_game_over g _ kicks

lemma clear_lines_game_over (g : Game) : (clear_lines g).game_over = g.game_over := by
  unfold clear_lines
  dsimp only []
  split <;> rfl

lemma dropLoopF_game_over (fuel : ℕ) (g : Game) :
    (dropLoopF fuel g).game_over = g.game_over := by
  induction fuel generalizing g with
  | zero => rfl
  | succ fuel ih =>
    unfold dropLoopF
    split
    · rfl
    · rw [ih]

/-! ## C9: spawn semantics and the game-over terminal state -/

/-- C9: a spawn promotes the lookahead piece to the centered spawn
position (column 10/2-2 = 3, row 0), draws a fresh lookahead piece,
re-arms `can_hold`, and sets `game_over` exactly when the promoted piece
collides at the spawn position.  Movement, rotation, locking, clearing
and the descent loop never change `game_over`; the gravity step, hard
drop and hold change it only through the spawn or hold-swap collision
test; and a restart resets it to false. -/
theorem spawn_piece_characterization (g : Game) (k : Fin 7) (ty : ℕ) (cw : Bool)
    (k1 k2 : Fin 7) (t1 t2 : ℕ) :
    ((spawn_piece g k ty).cur = { g.next with x := 10 / 2 - 2, y := 0 } ∧
     (spawn_piece g k ty).cur.x = 3 ∧
     (spawn_piece g k ty).cur.y = 0 ∧
     (spawn_piece g k ty).next = piece_from_k k ty ∧
     (spawn_piece g k ty).can_hold = true ∧
     (spawn_piece g k ty).game_over = (g.game_over || spawnCollides g)) ∧
    ((move_left g).game_over = g.game_over ∧
     (move_right g).game_over = g.game_over ∧
     (attempt_rotate g cw).game_over = g.game_over ∧
     (lock_piece g).game_over = g.game_over ∧
     (clear_lines g).game_over = g.game_over ∧
     (dropLoopF 64 g).game_over = g.game_over ∧
     (soft_step g k ty).game_over =
       (g.game_over || (collide g g.cur g.cur.x (g.cur.y + 1) &&
          spawnCollides (clear_lines (lock_piece g)))) ∧
     (hard_drop g k ty).game_over =
       (g.game_over || spawnCollides (clear_lines (lock_piece (dropLoopF 64 g)))) ∧
     (hold_piece g k ty).game_over =
       (g.game_over ||
        (g.can_hold && (if g.has_hold then holdCollides g else spawnCollides g)))) ∧
    (game_reset k1 t1 k2 t2).game_over = false := by
  have hsp := spawn_piece_fields g k ty
  refine ⟨⟨hsp.2.1, ?_, ?_, hsp.2.2.1, hsp.2.2.2.2.2.1, hsp.2.2.2.2.2.2.1⟩,
    ⟨move_left_game_over g, move_right_game_over g, attempt_rotate_game_over g cw,
     rfl, clear_lines_game_over g, dropLoopF_game_over 64 g, ?_, ?_, ?_⟩, rfl⟩
  · rw [hsp.2.1]
    show (10 / 2 - 2 : ℤ) = 3
    decide
  · rw [hsp.2.1]
  · unfold soft_step
    split
    · next hcol =>
      rw [hcol]
      have h2 := (spawn_piece_fields (clear_lines (lock_piece g)) k ty).2.2.2.2.2.2.1
      rw [h2, clear_lines_game_over, show (lock_piece g).game_over = g.game_over from rfl]
      simp
    · next hcol =>
      have hcol2 : collide g g.cur g.cur.x (g.cur.y + 1) = false := by
        rw [← Bool.not_eq_true]
        exact fun hx => hcol hx
      rw [hcol2]
      simp
  · unfold hard_drop
    have h2 := (spawn_piece_fields (clear_lines (lock_piece (dropLoopF 64 g))) k ty).2.2.2.2.2.2.1
    rw [h2, clear_lines_game_over,
      show (lock_piece (dropLoopF 64 g)).game_over = (dropLoopF 64 g).game_over from rfl,
      dropLoopF_game_over]
  · by_cases h1 : g.can_hold = true
    · by_cases h2 : g.has_hold = true
      · rw [hold_piece_swap_record g k ty h1 h2, h1, h2]
        simp
      · have h2f : g.has_hold = false := by simpa using h2
        rw [hold_piece_first_eq g k ty h1 h2f]
        have h3 := (spawn_piece_fields { g with hold := g.cur, has_hold := true } k ty).2.2.2.2.2.2.1
        show (spawn_piece { g with hold := g.cur, has_hold := true } k ty).game_over = _
        rw [h3, spawnCollides_congr { g with hold := g.cur, has_hold := true } g rfl rfl,
          h1, h2f]
        simp
    · have h1f : g.can_hold = false := by simpa using h1
      rw [hold_piece_disabled g k ty h1f, h1f]
      simp

/-! ## Helper lemmas: particle pool -/

lemma aliveCount_le (pool : Pool) : aliveCount pool ≤ MAX_PARTICLES := by
  unfold aliveCount
  calc (Finset.univ.filter fun j : Fin MAX_PARTICLES => (pool j).alive = true).card
      ≤ Finset.univ.card := Finset.card_filter_le _ _
    _ = MAX_PARTICLES := by rw [Finset.card_univ, Fintype.card_fin]

lemma findFreeAux_some_dead (pool : Pool) :
    ∀ (fuel j : ℕ) (i : Fin MAX_PARTICLES),
      findFreeAux pool j fuel = some i → (pool i).alive = false := by
  intro fuel
  induction fuel with
  | zero =>
    intro j i h
    exact absurd h (by simp [findFreeAux])
  | succ fuel ih =>
    intro j i h
    rw [findFreeAux] at h
    by_cases hj : j < MAX_PARTICLES
    · rw [dif_pos hj] at h
      cases hd : (pool ⟨j, hj⟩).alive with
      | false =>
        rw [hd] at h
        simp only [Bool.not_false, if_true] at h
        have he : (⟨j, hj⟩ : Fin MAX_PARTICLES) = i := by injection h
        rw [← he]
        exact hd
      | true =>
        rw [hd] at h
        simp only [Bool.not_true, Bool.false_eq_true, if_false] at h
        exact ih (j + 1) i h
    · rw [dif_neg hj] at h
      exact absurd h (by simp)

lemma findFreeAux_all_alive (pool : Pool)
    (h : ∀ j : Fin MAX_PARTICLES, (pool j).alive = true) :
    ∀ fuel j : ℕ, findFreeAux pool j fuel = none := by
  intro fuel
  induction fuel with
  | zero => intro j; rfl
  | succ fuel ih =>
    intro j
    rw [findFreeAux]
    by_cases hj : j < MAX_PARTICLES
    · rw [dif_pos hj, h ⟨j, hj⟩]
      simp only [Bool.not_true, Bool.false_eq_true, if_false]
      exact ih (j + 1)
    · rw [dif_neg hj]

lemma spawnOne_preserves_live (pool : Pool) (d : ParticleData) (j : Fin MAX_PARTICLES)
    (h : (pool j).alive = true) : spawnOne pool d j = pool j := by
  unfold spawnOne
  cases hfs : findFreeSlot pool with
  | none => rfl
  | some i =>
    have hdead : (pool i).alive = false := findFreeAux_some_dead pool MAX_PARTICLES 0 i hfs
    have hne : j ≠ i := by
      intro he
      rw [← he] at hdead
      rw [h] at hdead
      exact Bool.true_eq_false.mp hdead
    show Function.update pool i { alive := true, d := d } j = pool j
    exact Function.update_noteq hne _ pool

lemma spawn_explosion_preserves_live (ds : List ParticleData) :
    ∀ (pool : Pool) (j : Fin MAX_PARTICLES), (pool j).alive = true →
      spawn_explosion pool ds j = pool j := by
  induction ds with
  | nil => intro pool j h; rfl
  | cons d ds ih =>
    intro pool j h
    show spawn_explosion (spawnOne pool d) ds j = pool j
    have h1 := spawnOne_preserves_live pool d j h
    have h2 : (spawnOne pool d j).alive = true := by rw [h1]; exact h
    rw [ih (spawnOne pool d) j h2, h1]

lemma spawn_explosion_saturated (ds : List ParticleData) :
    ∀ pool : Pool, (∀ j : Fin MAX_PARTICLES, (pool j).alive = true) →
      spawn_explosion pool ds = pool := by
  induction ds with
  | nil => intro pool h; rfl
  | cons d ds ih =>
    intro pool h
    have hfs : findFreeSlot pool = none := findFreeAux_all_alive pool h MAX_PARTICLES 0
    show spawn_explosion (spawnOne pool d) ds = pool
    have hone : spawnOne pool d = pool := by
      unfold spawnOne
      rw [hfs]
      rfl
    rw [hone]
    exact ih pool h

/-! ## C10: particle pool capacity -/

/-- C10: the pool holds 4096 fixed slots; an explosion writes each drawn
particle into the first currently dead slot only — a slot that is alive
keeps its exact contents — and once every slot is alive the remaining
requests are dropped outright; the drawn count `120 + rand()%80` always
lies in [120, 199]; and after any sequence of explosions and update ticks
the number of alive particles can never exceed 4096. -/
theorem particle_pool_capacity (pool : Pool) (ds : List ParticleData)
    (ops : List PoolOp) :
    (∀ j : Fin MAX_PARTICLES, (pool j).alive = true →
      spawn_explosion pool ds j = pool j) ∧
    ((∀ j : Fin MAX_PARTICLES, (pool j).alive = true) →
      spawn_explosion pool ds = pool) ∧
    (∀ n : ℕ, 120 ≤ 120 + n % 80 ∧ 120 + n % 80 ≤ 199) ∧
    aliveCount (runPoolOps particles_reset ops) ≤ MAX_PARTICLES ∧
    aliveCount (runPoolOps pool ops) ≤ MAX_PARTICLES := by
  refine ⟨fun j h => spawn_explosion_preserves_live ds pool j h,
    spawn_explosion_saturated ds pool, ?_, aliveCount_le _, aliveCount_le _⟩
  intro n
  have := Nat.mod_lt n (show 0 < 80 by norm_num)
  omega

/-- Witness for `particle_pool_capacity`: an explosion request leaves the
live particle in slot 0 untouched. -/
theorem particle_pool_capacity_witness :
    (onePool 0).alive = true ∧
    spawn_explosion onePool [⟨0, 0, 0, 0, 0, 0⟩] 0 = onePool 0 :=
  ⟨by decide,
    (particle_pool_capacity onePool [⟨0, 0, 0, 0, 0, 0⟩] []).1 0 (by decide)⟩
